import Mathlib

/-!
Verification of the tree-synchronization core of the MoveFileToCodeCommitFromS3
Lambda (src/lambda_function.py) against its natural-language specification.

The embedding models file contents as byte lists (`List Nat`, each byte < 256 on
real inputs), strict UTF-8 decoding as `utf8Decode` (mirroring Python's
`bytes.decode("utf-8")`), and the CodeCommit backend (an external collaborator,
described in section 6 of the spec) as an explicit branch state with failure
injection and a log of backend calls.
-/

abbrev RPath := String

/-- A delete instruction, as built at src/lambda_function.py lines 39-41. -/
structure DeleteEntry where
  filePath : RPath
deriving DecidableEq, Repr

/-- A put instruction, as built at src/lambda_function.py lines 47-51.
The file content is the UTF-8-decoded code-point sequence of the input bytes. -/
structure PutEntry where
  filePath : RPath
  fileMode : String
  fileContent : List Nat
deriving DecidableEq, Repr

/-- Errors a synchronize invocation can surface. -/
inductive SyncError where
  | branchNotFound
  | repositoryNotFound
  | decodeError (filePath : RPath)
  | commitConflict
  | backendUnavailable
deriving DecidableEq, Repr

/-- Strict UTF-8 decoding with explicit fuel (the fuel is instantiated with the
input length, which always suffices since every step consumes at least one
byte). Returns the decoded code points, or `none` on any invalid sequence:
stray continuation bytes, overlong encodings, surrogates, code points beyond
U+10FFFF, and truncated sequences are all rejected, as Python's strict
`bytes.decode("utf-8")` rejects them. -/
def utf8DecodeFuel : Nat → List Nat → Option (List Nat)
  | _, [] => some []
  | 0, _ :: _ => none
  | fuel + 1, b1 :: rest =>
    if b1 < 0x80 then
      (utf8DecodeFuel fuel rest).map (fun cs => b1 :: cs)
    else if b1 < 0xC2 then
      none
    else if b1 < 0xE0 then
      match rest with
      | b2 :: rest2 =>
        if 0x80 ≤ b2 ∧ b2 < 0xC0 then
          (utf8DecodeFuel fuel rest2).map
            (fun cs => ((b1 - 0xC0) * 64 + (b2 - 0x80)) :: cs)
        else none
      | [] => none
    else if b1 < 0xF0 then
      match rest with
      | b2 :: b3 :: rest3 =>
        let lo2 := if b1 = 0xE0 then 0xA0 else 0x80
        let hi2 := if b1 = 0xED then 0xA0 else 0xC0
        if (lo2 ≤ b2 ∧ b2 < hi2) ∧ (0x80 ≤ b3 ∧ b3 < 0xC0) then
          (utf8DecodeFuel fuel rest3).map
            (fun cs => ((b1 - 0xE0) * 4096 + (b2 - 0x80) * 64 + (b3 - 0x80)) :: cs)
        else none
      | _ => none
    else if b1 < 0xF5 then
      match rest with
      | b2 :: b3 :: b4 :: rest4 =>
        let lo2 := if b1 = 0xF0 then 0x90 else 0x80
        let hi2 := if b1 = 0xF4 then 0x90 else 0xC0
        if (lo2 ≤ b2 ∧ b2 < hi2) ∧ (0x80 ≤ b3 ∧ b3 < 0xC0) ∧ (0x80 ≤ b4 ∧ b4 < 0xC0) then
          (utf8DecodeFuel fuel rest4).map
            (fun cs =>
              ((b1 - 0xF0) * 262144 + (b2 - 0x80) * 4096 + (b3 - 0x80) * 64 + (b4 - 0x80)) :: cs)
        else none
      | _ => none
    else none

/-- Strict UTF-8 decoding of a byte list, the model of Python's
`content.decode("utf-8")` at src/lambda_function.py line 50. -/
def utf8Decode (bs : List Nat) : Option (List Nat) :=
  utf8DecodeFuel bs.length bs

/-- Python dict key membership: `file_path in unzipped_content`
(src/lambda_function.py line 38), on the association-list model of the dict. -/
def hasKey (unzipped_content : List (RPath × List Nat)) (p : RPath) : Bool :=
  unzipped_content.any (fun e => e.1 == p)

/-- The delete list of src/lambda_function.py lines 36-41: every path of the
current root listing that is not a key of `unzipped_content`, in listing
order. -/
def delete_changes (existing_files : List RPath)
    (unzipped_content : List (RPath × List Nat)) : List DeleteEntry :=
  (existing_files.filter (fun p => !(hasKey unzipped_content p))).map
    (fun p => { filePath := p })

/-- The put list of src/lambda_function.py lines 43-51: every entry of
`unzipped_content` with non-empty content (Python truthiness of bytes),
UTF-8-decoded, with mode NORMAL; a decode failure raises (modelled as
`Except.error`), as `content.decode("utf-8")` raises UnicodeDecodeError. -/
def put_changes : List (RPath × List Nat) → Except SyncError (List PutEntry)
  | [] => .ok []
  | (p, c) :: rest =>
    if c = [] then put_changes rest
    else
      match utf8Decode c with
      | none => .error (.decodeError p)
      | some s =>
        (put_changes rest).map
          (fun l => { filePath := p, fileMode := "NORMAL", fileContent := s } :: l)

/-- State of the target branch in the version-control backend: head commit id
and the root tree (path, stored content) pairs. -/
structure BranchState where
  headId : Nat
  tree : List (RPath × List Nat)
deriving DecidableEq, Repr

/-- Modelled from the spec (section 6): applying a commit's delete and put
instructions to the branch root tree. Deleted paths and overwritten paths are
removed, then every put entry's (path, content) is present in the result. The
backend applies the whole change set atomically. -/
def applyChanges (tree : List (RPath × List Nat)) (dels : List DeleteEntry)
    (puts : List PutEntry) : List (RPath × List Nat) :=
  ((tree.filter (fun e => !(dels.any (fun d => d.filePath == e.1)))).filter
      (fun e => !(puts.any (fun pc => pc.filePath == e.1)))) ++
    puts.map (fun pc => (pc.filePath, pc.fileContent))

/-- The backend environment of one invocation: the branch state plus failure
injection for each backend call (`none` means the call succeeds). The backend
is an external collaborator; the failures model the spec's section 4.1 error
conditions (missing repository or branch, transport failure). -/
structure Env where
  branch : BranchState
  getBranchErr : Option SyncError
  getFolderErr : Option SyncError
  createCommitErr : Option SyncError
deriving Repr

/-- The three backend calls push_to_codecommit issues, for the call log. -/
inductive BackendCall where
  | getBranch
  | getFolder
  | createCommit
deriving DecidableEq, Repr

/-- Modelled from the spec (section 6): the backend's create_commit. It rejects
a stale parent commit id (CommitConflict), otherwise atomically applies the
delete and put instructions and returns the new commit id. -/
def create_commit (env : Env) (parentCommitId : Nat) (putFiles : List PutEntry)
    (deleteFiles : List DeleteEntry) : Except SyncError (Nat × BranchState) :=
  match env.createCommitErr with
  | some e => .error e
  | none =>
    if parentCommitId ≠ env.branch.headId then .error .commitConflict
    else
      .ok (env.branch.headId + 1,
        { headId := env.branch.headId + 1,
          tree := applyChanges env.branch.tree deleteFiles putFiles })

/-- The synchronization core, src/lambda_function.py lines 14-66: fetch the
branch head, fetch the root listing, compute delete and put change sets, and
issue one create_commit. Returns the commit result, the resulting branch
state (unchanged unless the commit succeeded), and the log of backend calls
issued, in order. -/
def push_to_codecommit (env : Env) (unzipped_content : List (RPath × List Nat)) :
    Except SyncError Nat × BranchState × List BackendCall :=
  match env.getBranchErr with
  | some e => (.error e, env.branch, [.getBranch])
  | none =>
    match env.getFolderErr with
    | some e => (.error e, env.branch, [.getBranch, .getFolder])
    | none =>
      let existing_files := env.branch.tree.map Prod.fst
      let dels := delete_changes existing_files unzipped_content
      match put_changes unzipped_content with
      | .error e => (.error e, env.branch, [.getBranch, .getFolder])
      | .ok puts =>
        match create_commit env env.branch.headId puts dels with
        | .error e => (.error e, env.branch, [.getBranch, .getFolder, .createCommit])
        | .ok (cid, st) => (.ok cid, st, [.getBranch, .getFolder, .createCommit])

/-- The handler's possible return values, src/lambda_function.py lines 89-121:
either the identity service's response text passed through verbatim (the
authentication-failure path, line 98), or the success dictionary with a status
code and a body string (lines 118-121). No other return shape exists in the
code. -/
inductive HandlerResponse where
  | rawText (text : String)
  | okDict (statusCode : Nat) (body : String)
deriving DecidableEq, Repr

/-- The caller-facing handler, src/lambda_function.py lines 89-121, with the
identity service's reply (status code and body text) and the already
extracted archive as inputs. An exception escaping push_to_codecommit
propagates out of the handler uncaught (`Except.error`): the handler has no
try/except. -/
def lambda_handler (authStatusCode : Nat) (authText : String) (env : Env)
    (unzipped_content : List (RPath × List Nat)) : Except SyncError HandlerResponse :=
  if authStatusCode ≠ 200 then .ok (.rawText authText)
  else
    match (push_to_codecommit env unzipped_content).1 with
    | .error e => .error e
    | .ok cid => .ok (.okDict 200 ("Operation completed with commit ID: " ++ toString cid))

/-- The spec's section 7 error taxonomy. -/
inductive ErrorKind where
  | authFailure
  | notFound
  | commitConflict
  | malformedInput
  | backendUnavailable
deriving DecidableEq, Repr

/-- Modelled from the spec (sections 6 and 7): a response is a structured error
when it carries an error kind of the taxonomy together with an underlying
message. Neither of the handler's two response shapes (a verbatim pass-through
string and the success dictionary) has an error-kind field, so no response the
code can build is a structured error in the spec's sense. -/
def carriesErrorKind : HandlerResponse → Prop
  | .rawText _ => False
  | .okDict _ _ => False

/-- An environment in which every backend call succeeds. -/
def allOk (st : BranchState) : Env :=
  { branch := st, getBranchErr := none, getFolderErr := none, createCommitErr := none }

example : utf8Decode [104, 101, 108, 108, 111] = some [104, 101, 108, 108, 111] := by decide
example : utf8Decode [0xFF] = none := by decide
example : utf8Decode [0xC3, 0xA9] = some [233] := by decide
example : utf8Decode [0xC3] = none := by decide
example : utf8Decode [0xED, 0xA0, 0x80] = none := by decide
example : utf8Decode [0xE2, 0x82, 0xAC] = some [8364] := by decide

/-! ## Helper lemmas about the change-set computation -/

theorem hasKey_iff (d : List (RPath × List Nat)) (p : RPath) :
    hasKey d p = true ↔ ∃ c, (p, c) ∈ d := by
  simp only [hasKey, List.any_eq_true]
  constructor
  · rintro ⟨⟨a, b⟩, hm, he⟩
    simp only [beq_iff_eq] at he
    subst he
    exact ⟨b, hm⟩
  · rintro ⟨c, hc⟩
    exact ⟨(p, c), hc, by simp⟩

theorem hasKey_false_iff (d : List (RPath × List Nat)) (p : RPath) :
    hasKey d p = false ↔ ¬ ∃ c, (p, c) ∈ d := by
  rw [← hasKey_iff d p]
  simp

theorem delete_changes_map (existing_files : List RPath) (d : List (RPath × List Nat)) :
    (delete_changes existing_files d).map (fun e => e.filePath) =
      existing_files.filter (fun p => !(hasKey d p)) := by
  simp only [delete_changes, List.map_map]
  have hcomp : ((fun (e : DeleteEntry) => e.filePath) ∘ fun p => ({ filePath := p } : DeleteEntry)) =
      fun p => p := rfl
  rw [hcomp, List.map_id']

theorem mem_delete_paths (existing_files : List RPath) (d : List (RPath × List Nat))
    (q : RPath) :
    q ∈ (delete_changes existing_files d).map (fun e => e.filePath) ↔
      q ∈ existing_files ∧ ¬ ∃ c, (q, c) ∈ d := by
  rw [delete_changes_map, List.mem_filter]
  simp only [Bool.not_eq_eq_eq_not, Bool.not_true, hasKey_false_iff]

theorem nodup_keys_functional {α β : Type} (d : List (α × β))
    (hnd : (d.map Prod.fst).Nodup) {p : α} {a b : β}
    (ha : (p, a) ∈ d) (hb : (p, b) ∈ d) : a = b := by
  induction d with
  | nil => cases ha
  | cons e rest ih =>
    rw [List.map_cons, List.nodup_cons] at hnd
    obtain ⟨hhead, hrest⟩ := hnd
    cases ha with
    | head =>
      cases hb with
      | head => rfl
      | tail _ hb2 =>
        exact absurd (List.mem_map.mpr ⟨(p, b), hb2, rfl⟩) hhead
    | tail _ ha2 =>
      cases hb with
      | head =>
        exact absurd (List.mem_map.mpr ⟨(p, a), ha2, rfl⟩) hhead
      | tail _ hb2 => exact ih hrest ha2 hb2

theorem put_changes_paths (d : List (RPath × List Nat)) (ps : List PutEntry)
    (h : put_changes d = Except.ok ps) :
    ps.map (fun pc => pc.filePath) =
      (d.filter (fun e => decide (e.2 ≠ []))).map Prod.fst := by
  induction d generalizing ps with
  | nil =>
    simp only [put_changes] at h
    cases h
    simp
  | cons e rest ih =>
    obtain ⟨p, c⟩ := e
    by_cases hc : c = []
    · subst hc
      simp only [put_changes, if_pos rfl] at h
      simpa using ih ps h
    · simp only [put_changes, if_neg hc] at h
      cases hdec : utf8Decode c with
      | none => rw [hdec] at h; cases h
      | some s =>
        rw [hdec] at h
        cases hrest : put_changes rest with
        | error e2 => rw [hrest] at h; cases h
        | ok l =>
          rw [hrest] at h
          simp only [Except.map] at h
          cases h
          simp only [List.map_cons, List.filter_cons]
          rw [if_pos (by simpa using hc)]
          simp only [List.map_cons]
          rw [ih l hrest]

theorem put_changes_mem (d : List (RPath × List Nat)) (ps : List PutEntry)
    (h : put_changes d = Except.ok ps) (pc : PutEntry) (hpc : pc ∈ ps) :
    pc.fileMode = "NORMAL" ∧
      ∃ c, (pc.filePath, c) ∈ d ∧ c ≠ [] ∧ utf8Decode c = some pc.fileContent := by
  induction d generalizing ps with
  | nil =>
    simp only [put_changes] at h
    cases h
    cases hpc
  | cons e rest ih =>
    obtain ⟨p, c⟩ := e
    by_cases hc : c = []
    · subst hc
      simp only [put_changes, if_pos rfl] at h
      obtain ⟨hm, c2, hc2, hne, hdec⟩ := ih ps h hpc
      exact ⟨hm, c2, List.mem_cons_of_mem _ hc2, hne, hdec⟩
    · simp only [put_changes, if_neg hc] at h
      cases hdec : utf8Decode c with
      | none => rw [hdec] at h; cases h
      | some s =>
        rw [hdec] at h
        cases hrest : put_changes rest with
        | error e2 => rw [hrest] at h; cases h
        | ok l =>
          rw [hrest] at h
          simp only [Except.map] at h
          cases h
          cases hpc with
          | head => exact ⟨rfl, c, List.mem_cons_self _ _, hc, hdec⟩
          | tail _ hpc2 =>
            obtain ⟨hm, c2, hc2, hne, hdec2⟩ := ih l hrest hpc2
            exact ⟨hm, c2, List.mem_cons_of_mem _ hc2, hne, hdec2⟩

theorem put_changes_error (d : List (RPath × List Nat)) (p : RPath) (c : List Nat)
    (hmem : (p, c) ∈ d) (hne : c ≠ []) (hdec : utf8Decode c = none) :
    ∃ q, put_changes d = Except.error (SyncError.decodeError q) := by
  induction d with
  | nil => cases hmem
  | cons e rest ih =>
    obtain ⟨p0, c0⟩ := e
    by_cases hc0 : c0 = []
    · subst hc0
      simp only [put_changes, if_pos rfl]
      cases hmem with
      | head => exact absurd rfl hne
      | tail _ hmem2 => exact ih hmem2
    · simp only [put_changes, if_neg hc0]
      cases hdec0 : utf8Decode c0 with
      | none => exact ⟨p0, rfl⟩
      | some s0 =>
        have hmem2 : (p, c) ∈ rest := by
          cases hmem with
          | head => rw [hdec0] at hdec; cases hdec
          | tail _ hmem2 => exact hmem2
        obtain ⟨q, hq⟩ := ih hmem2
        rw [hq]
        exact ⟨q, rfl⟩

theorem mem_put_paths (d : List (RPath × List Nat)) (ps : List PutEntry)
    (h : put_changes d = Except.ok ps) (p : RPath) :
    p ∈ ps.map (fun pc => pc.filePath) ↔ ∃ c, (p, c) ∈ d ∧ c ≠ [] := by
  rw [put_changes_paths d ps h]
  simp only [List.mem_map, List.mem_filter]
  constructor
  · rintro ⟨⟨a, b⟩, ⟨hm, hb⟩, rfl⟩
    refine ⟨b, hm, ?_⟩
    simpa using hb
  · rintro ⟨c, hm, hc⟩
    exact ⟨(p, c), ⟨hm, by simpa using hc⟩, rfl⟩

/-! ## Helper lemmas about push_to_codecommit and the backend model -/

theorem push_allOk_eq (st : BranchState) (d : List (RPath × List Nat)) (ps : List PutEntry)
    (hps : put_changes d = Except.ok ps) :
    push_to_codecommit (allOk st) d =
      (Except.ok (st.headId + 1),
       { headId := st.headId + 1,
         tree := applyChanges st.tree (delete_changes (st.tree.map Prod.fst) d) ps },
       [BackendCall.getBranch, BackendCall.getFolder, BackendCall.createCommit]) := by
  simp [push_to_codecommit, allOk, hps, create_commit]

theorem push_allOk_error (st : BranchState) (d : List (RPath × List Nat)) (e : SyncError)
    (hps : put_changes d = Except.error e) :
    push_to_codecommit (allOk st) d =
      (Except.error e, st, [BackendCall.getBranch, BackendCall.getFolder]) := by
  simp [push_to_codecommit, allOk, hps]

theorem push_allOk_elim (st : BranchState) (d : List (RPath × List Nat)) (c1 : Nat)
    (st1 : BranchState) (log : List BackendCall)
    (h : push_to_codecommit (allOk st) d = (Except.ok c1, st1, log)) :
    ∃ ps, put_changes d = Except.ok ps ∧ c1 = st.headId + 1 ∧
      st1 = { headId := st.headId + 1,
              tree := applyChanges st.tree (delete_changes (st.tree.map Prod.fst) d) ps } := by
  cases hps : put_changes d with
  | error e =>
    rw [push_allOk_error st d e hps] at h
    have h1 : (Except.error e : Except SyncError Nat) = Except.ok c1 := congrArg Prod.fst h
    exact Except.noConfusion h1
  | ok ps =>
    rw [push_allOk_eq st d ps hps] at h
    have h1 : (Except.ok (st.headId + 1) : Except SyncError Nat) = Except.ok c1 :=
      congrArg Prod.fst h
    have h2 := congrArg (fun x => x.2.1) h
    simp only at h2
    cases h1
    exact ⟨ps, rfl, rfl, h2.symm⟩

theorem mem_applyChanges_paths (tree : List (RPath × List Nat)) (dels : List DeleteEntry)
    (puts : List PutEntry) (p : RPath) :
    p ∈ (applyChanges tree dels puts).map Prod.fst ↔
      ((p ∈ tree.map Prod.fst ∧ dels.any (fun e => e.filePath == p) = false ∧
          puts.any (fun pc => pc.filePath == p) = false) ∨
        p ∈ puts.map (fun pc => pc.filePath)) := by
  simp only [applyChanges, List.map_append, List.mem_append, List.map_map]
  apply or_congr
  · simp only [List.mem_map, List.mem_filter]
    constructor
    · rintro ⟨⟨a, b⟩, ⟨⟨hmem, h1⟩, h2⟩, rfl⟩
      refine ⟨⟨(a, b), hmem, rfl⟩, ?_, ?_⟩
      · simpa using h1
      · simpa using h2
    · rintro ⟨⟨⟨a, b⟩, hmem, rfl⟩, h1, h2⟩
      exact ⟨(a, b), ⟨⟨hmem, by simpa using h1⟩, by simpa using h2⟩, rfl⟩
  · have hcomp : (Prod.fst ∘ fun pc : PutEntry => (pc.filePath, pc.fileContent)) =
        fun pc : PutEntry => pc.filePath := rfl
    rw [hcomp]

theorem put_paths_hasKey (d : List (RPath × List Nat)) (ps : List PutEntry)
    (h : put_changes d = Except.ok ps) (pc : PutEntry) (hpc : pc ∈ ps) :
    hasKey d pc.filePath = true := by
  obtain ⟨-, c, hm, -, -⟩ := put_changes_mem d ps h pc hpc
  exact (hasKey_iff d pc.filePath).mpr ⟨c, hm⟩

theorem resync_delete_nil (tree : List (RPath × List Nat)) (d : List (RPath × List Nat))
    (ps : List PutEntry) (hps : put_changes d = Except.ok ps) :
    delete_changes
      ((applyChanges tree (delete_changes (tree.map Prod.fst) d) ps).map Prod.fst) d = [] := by
  rw [delete_changes, List.map_eq_nil_iff, List.filter_eq_nil_iff]
  intro p hp
  rw [mem_applyChanges_paths] at hp
  simp only [Bool.not_eq_true', hasKey_false_iff, not_not]
  cases hp with
  | inl hkept =>
    obtain ⟨hmem, hdel, -⟩ := hkept
    by_contra hk
    have hk2 : hasKey d p = false := by
      rw [hasKey_false_iff]
      exact hk
    have hdelmem : ({ filePath := p } : DeleteEntry) ∈ delete_changes (tree.map Prod.fst) d := by
      simp only [delete_changes, List.mem_map]
      refine ⟨p, ?_, rfl⟩
      rw [List.mem_filter]
      exact ⟨hmem, by simp [hk2]⟩
    have hany : (delete_changes (tree.map Prod.fst) d).any (fun e => e.filePath == p) = true :=
      List.any_eq_true.mpr ⟨_, hdelmem, by simp⟩
    rw [hany] at hdel
    cases hdel
  | inr hput =>
    obtain ⟨pc, hpc, rfl⟩ := List.mem_map.mp hput
    rw [← hasKey_iff]
    exact put_paths_hasKey d ps hps pc hpc

theorem applyChanges_twice (tree : List (RPath × List Nat)) (dels : List DeleteEntry)
    (puts : List PutEntry) :
    applyChanges (applyChanges tree dels puts) [] puts = applyChanges tree dels puts := by
  simp only [applyChanges, List.any_nil, Bool.not_false, List.filter_true]
  rw [List.filter_append]
  have h1 : ((tree.filter (fun e => !(dels.any (fun de => de.filePath == e.1)))).filter
      (fun e => !(puts.any (fun pc => pc.filePath == e.1)))).filter
      (fun e => !(puts.any (fun pc => pc.filePath == e.1))) =
      (tree.filter (fun e => !(dels.any (fun de => de.filePath == e.1)))).filter
        (fun e => !(puts.any (fun pc => pc.filePath == e.1))) :=
    List.filter_eq_self.mpr (fun a ha => (List.mem_filter.mp ha).2)
  have h2 : (puts.map (fun pc => (pc.filePath, pc.fileContent))).filter
      (fun e => !(puts.any (fun pc => pc.filePath == e.1))) = [] := by
    rw [List.filter_eq_nil_iff]
    rintro ⟨a, b⟩ hx
    obtain ⟨pc, hpc, hfe⟩ := List.mem_map.mp hx
    have hany : puts.any (fun pc2 => pc2.filePath == a) = true := by
      refine List.any_eq_true.mpr ⟨pc, hpc, ?_⟩
      have : pc.filePath = a := congrArg Prod.fst hfe
      simp [this]
    simp [hany]
  rw [h1, h2, List.append_nil]

/-! ## Claim theorems -/

/-- Claim C3: for every current root listing and desired_files, the delete-set
consists of exactly those paths of the current listing that are not present as
keys of desired_files, and (the listing being a duplicate-free set of paths)
each such path appears in the delete-set exactly once. -/
theorem C3_delete_set_exact (existing_files : List RPath) (d : List (RPath × List Nat))
    (hnd : existing_files.Nodup) :
    (∀ q, q ∈ (delete_changes existing_files d).map (fun e => e.filePath) ↔
        (q ∈ existing_files ∧ ¬ ∃ c, (q, c) ∈ d)) ∧
    ((delete_changes existing_files d).map (fun e => e.filePath)).Nodup := by
  constructor
  · intro q
    exact mem_delete_paths existing_files d q
  · rw [delete_changes_map]
    exact hnd.filter _

theorem C3_delete_set_exact_witness :
    (∀ q, q ∈ (delete_changes ["a.txt", "b.txt"] [("a.txt", [104])]).map
        (fun e => e.filePath) ↔
        (q ∈ ["a.txt", "b.txt"] ∧ ¬ ∃ c, (q, c) ∈ [("a.txt", [104])])) ∧
    ((delete_changes ["a.txt", "b.txt"] [("a.txt", [104])]).map
        (fun e => e.filePath)).Nodup :=
  C3_delete_set_exact ["a.txt", "b.txt"] [("a.txt", [104])] (by decide)

/-- Claim C4: the put-set consists of exactly the (path, content) pairs of
desired_files whose content is non-empty, in order, each with mode NORMAL and
with the UTF-8 decoding of the original bytes as its content; entries with
empty content are excluded. -/
theorem C4_put_set_exact (d : List (RPath × List Nat)) (ps : List PutEntry)
    (h : put_changes d = Except.ok ps) :
    ps.map (fun pc => pc.filePath) =
      (d.filter (fun e => decide (e.2 ≠ []))).map Prod.fst ∧
    ∀ pc ∈ ps, pc.fileMode = "NORMAL" ∧
      ∃ c, (pc.filePath, c) ∈ d ∧ c ≠ [] ∧ utf8Decode c = some pc.fileContent :=
  ⟨put_changes_paths d ps h, fun pc hpc => put_changes_mem d ps h pc hpc⟩

theorem C4_put_set_exact_witness :
    ([({ filePath := "a.txt", fileMode := "NORMAL", fileContent := [104] } : PutEntry)].map
        (fun pc => pc.filePath) =
      (([("a.txt", [104]), ("b.txt", [])] : List (RPath × List Nat)).filter
          (fun e => decide (e.2 ≠ []))).map Prod.fst) ∧
    ∀ pc ∈ [({ filePath := "a.txt", fileMode := "NORMAL", fileContent := [104] } : PutEntry)],
      pc.fileMode = "NORMAL" ∧
      ∃ c, (pc.filePath, c) ∈ ([("a.txt", [104]), ("b.txt", [])] : List (RPath × List Nat)) ∧
        c ≠ [] ∧ utf8Decode c = some pc.fileContent :=
  C4_put_set_exact [("a.txt", [104]), ("b.txt", [])]
    [{ filePath := "a.txt", fileMode := "NORMAL", fileContent := [104] }] rfl

/-- Claim C5: no path appears in both the computed put-set and the computed
delete-set. -/
theorem C5_put_delete_disjoint (existing_files : List RPath)
    (d : List (RPath × List Nat)) (ps : List PutEntry)
    (h : put_changes d = Except.ok ps) (p : RPath) :
    ¬ (p ∈ ps.map (fun pc => pc.filePath) ∧
        p ∈ (delete_changes existing_files d).map (fun e => e.filePath)) := by
  rintro ⟨hput, hdel⟩
  rw [mem_put_paths d ps h] at hput
  rw [mem_delete_paths] at hdel
  obtain ⟨c, hc, -⟩ := hput
  exact hdel.2 ⟨c, hc⟩

theorem C5_put_delete_disjoint_witness :
    ¬ ("a.txt" ∈ ([({ filePath := "a.txt", fileMode := "NORMAL", fileContent := [104] } :
          PutEntry)].map (fun pc => pc.filePath)) ∧
        "a.txt" ∈ (delete_changes ["a.txt", "b.txt"]
          [("a.txt", [104])]).map (fun e => e.filePath)) :=
  C5_put_delete_disjoint ["a.txt", "b.txt"] [("a.txt", [104])]
    [{ filePath := "a.txt", fileMode := "NORMAL", fileContent := [104] }] rfl "a.txt"

/-- Claim C2 counterexample: the path b.txt is in the current listing and is a
desired key mapped to empty content, yet the computed delete-set is empty, so
the claim's requirement that such a path appear in the delete-set fails. -/
theorem C2_empty_content_cx :
    ("b.txt" ∈ ["b.txt"]) ∧
    (("b.txt", ([] : List Nat)) ∈ [("b.txt", ([] : List Nat))]) ∧
    delete_changes ["b.txt"] [("b.txt", ([] : List Nat))] = [] :=
  ⟨by decide, by decide, rfl⟩

/-- Claim C2 (amended): a key of desired_files mapped to empty content never
appears in the put-set, and it never appears in the delete-set either, because
deletion is decided by key membership alone, not by content emptiness; if such
a path existed in the current tree listing it survives unchanged. -/
theorem C2_empty_content_excluded (existing_files : List RPath)
    (d : List (RPath × List Nat)) (ps : List PutEntry) (p : RPath)
    (hnd : (d.map Prod.fst).Nodup) (h : put_changes d = Except.ok ps)
    (hp : (p, ([] : List Nat)) ∈ d) :
    p ∉ ps.map (fun pc => pc.filePath) ∧
    p ∉ (delete_changes existing_files d).map (fun e => e.filePath) := by
  constructor
  · intro hmem
    rw [mem_put_paths d ps h] at hmem
    obtain ⟨c, hc, hne⟩ := hmem
    exact hne (nodup_keys_functional d hnd hc hp)
  · intro hmem
    rw [mem_delete_paths] at hmem
    exact hmem.2 ⟨[], hp⟩

theorem C2_empty_content_excluded_witness :
    "b.txt" ∉ ([({ filePath := "a.txt", fileMode := "NORMAL", fileContent := [104] } :
        PutEntry)].map (fun pc => pc.filePath)) ∧
    "b.txt" ∉ (delete_changes ["b.txt"]
        [("a.txt", [104]), ("b.txt", [])]).map (fun e => e.filePath) :=
  C2_empty_content_excluded ["b.txt"] [("a.txt", [104]), ("b.txt", [])]
    [{ filePath := "a.txt", fileMode := "NORMAL", fileContent := [104] }] "b.txt"
    (by decide) rfl (by decide)

/-- Claim C1 counterexample: starting from a tree containing b.txt and desired
files mapping b.txt to empty content, the synchronize succeeds but the
resulting root tree still contains b.txt, which is not a key with non-empty
content, so the resulting tree does not equal the non-empty-keyed
desired_files. -/
theorem C1_tree_exactness_cx :
    ((push_to_codecommit (allOk { headId := 0, tree := [("b.txt", [104])] })
        [("b.txt", ([] : List Nat))]).1 = Except.ok 1) ∧
    ((push_to_codecommit (allOk { headId := 0, tree := [("b.txt", [104])] })
        [("b.txt", ([] : List Nat))]).2.1.tree.map Prod.fst = ["b.txt"]) ∧
    (∀ c : List Nat, ("b.txt", c) ∈ [("b.txt", ([] : List Nat))] → c = []) := by
  refine ⟨rfl, rfl, ?_⟩
  intro c hc
  simpa using hc

/-- Claim C1 (amended): after a successful synchronize with no concurrent
writer, the resulting root tree's paths are exactly the desired keys with
non-empty content together with those desired keys mapped to empty content
that already existed in the current listing. -/
theorem C1_tree_after_sync (st : BranchState) (d : List (RPath × List Nat))
    (c1 : Nat) (st1 : BranchState) (log : List BackendCall)
    (h : push_to_codecommit (allOk st) d = (Except.ok c1, st1, log)) (p : RPath) :
    p ∈ st1.tree.map Prod.fst ↔
      ((∃ c, (p, c) ∈ d ∧ c ≠ []) ∨
        ((p, ([] : List Nat)) ∈ d ∧ p ∈ st.tree.map Prod.fst)) := by
  obtain ⟨ps, hps, -, hst1⟩ := push_allOk_elim st d c1 st1 log h
  rw [hst1]
  show p ∈ (applyChanges st.tree (delete_changes (st.tree.map Prod.fst) d) ps).map
      Prod.fst ↔ _
  rw [mem_applyChanges_paths]
  have hput : (ps.any (fun pc => pc.filePath == p)) = true ↔
      p ∈ ps.map (fun pc => pc.filePath) := by
    simp [List.any_eq_true, List.mem_map]
  have hdelany : ((delete_changes (st.tree.map Prod.fst) d).any
      (fun e => e.filePath == p)) = true ↔
      (p ∈ st.tree.map Prod.fst ∧ ¬ ∃ c, (p, c) ∈ d) := by
    rw [← mem_delete_paths]
    simp [List.any_eq_true, List.mem_map]
  constructor
  · rintro (⟨hmem, hdelF, hputF⟩ | hp)
    · have hnodel : ¬ (p ∈ st.tree.map Prod.fst ∧ ¬ ∃ c, (p, c) ∈ d) := by
        rw [← hdelany]
        simp [hdelF]
      have hkey : ∃ c, (p, c) ∈ d := by
        by_contra hk
        exact hnodel ⟨hmem, hk⟩
      obtain ⟨c, hc⟩ := hkey
      have hnoput : ¬ ∃ c2, (p, c2) ∈ d ∧ c2 ≠ [] := by
        rw [← mem_put_paths d ps hps, ← hput]
        simp [hputF]
      have hceq : c = [] := by
        by_contra hne
        exact hnoput ⟨c, hc, hne⟩
      subst hceq
      exact Or.inr ⟨hc, hmem⟩
    · exact Or.inl ((mem_put_paths d ps hps p).mp hp)
  · rintro (hne | ⟨hpd, hmem⟩)
    · exact Or.inr ((mem_put_paths d ps hps p).mpr hne)
    · by_cases hinp : p ∈ ps.map (fun pc => pc.filePath)
      · exact Or.inr hinp
      · refine Or.inl ⟨hmem, ?_, ?_⟩
        · rw [← Bool.not_eq_true, hdelany]
          rintro ⟨-, hnk⟩
          exact hnk ⟨[], hpd⟩
        · rw [← Bool.not_eq_true, hput]
          exact hinp

theorem C1_tree_after_sync_witness :
    "a.txt" ∈ (BranchState.mk 1 [("a.txt", [104])]).tree.map Prod.fst ↔
      ((∃ c, ("a.txt", c) ∈ [("a.txt", ([104] : List Nat))] ∧ c ≠ []) ∨
        (("a.txt", ([] : List Nat)) ∈ [("a.txt", ([104] : List Nat))] ∧
          "a.txt" ∈ (BranchState.mk 0 ([] : List (RPath × List Nat))).tree.map Prod.fst)) :=
  C1_tree_after_sync { headId := 0, tree := [] } [("a.txt", [104])] 1
    { headId := 1, tree := [("a.txt", [104])] }
    [BackendCall.getBranch, BackendCall.getFolder, BackendCall.createCommit] rfl "a.txt"

/-- Claim C6: calling synchronize twice in sequence with the same desired_files
and no concurrent writers succeeds again and leaves the tree after the second
call identical to the tree after the first call. -/
theorem C6_sync_idempotent (st : BranchState) (d : List (RPath × List Nat))
    (c1 : Nat) (st1 : BranchState) (log1 : List BackendCall)
    (h : push_to_codecommit (allOk st) d = (Except.ok c1, st1, log1)) :
    ∃ c2 st2 log2, push_to_codecommit (allOk st1) d = (Except.ok c2, st2, log2) ∧
      st2.tree = st1.tree := by
  obtain ⟨ps, hps, -, hst1⟩ := push_allOk_elim st d c1 st1 log1 h
  refine ⟨st1.headId + 1, _, _, push_allOk_eq st1 d ps hps, ?_⟩
  rw [hst1]
  show applyChanges (applyChanges st.tree (delete_changes (st.tree.map Prod.fst) d) ps)
      (delete_changes
        ((applyChanges st.tree (delete_changes (st.tree.map Prod.fst) d) ps).map Prod.fst)
        d) ps =
    applyChanges st.tree (delete_changes (st.tree.map Prod.fst) d) ps
  rw [resync_delete_nil st.tree d ps hps, applyChanges_twice]

theorem C6_sync_idempotent_witness :
    ∃ c2 st2 log2,
      push_to_codecommit (allOk { headId := 1, tree := [("a.txt", [104])] })
          [("a.txt", ([104] : List Nat))] = (Except.ok c2, st2, log2) ∧
      st2.tree = (BranchState.mk 1 [("a.txt", [104])]).tree :=
  C6_sync_idempotent { headId := 0, tree := [] } [("a.txt", [104])] 1
    { headId := 1, tree := [("a.txt", [104])] }
    [BackendCall.getBranch, BackendCall.getFolder, BackendCall.createCommit] rfl

theorem push_getBranch_err (env : Env) (d : List (RPath × List Nat)) (e : SyncError)
    (hgb : env.getBranchErr = some e) :
    push_to_codecommit env d = (Except.error e, env.branch, [BackendCall.getBranch]) := by
  simp [push_to_codecommit, hgb]

theorem push_getFolder_err (env : Env) (d : List (RPath × List Nat)) (e : SyncError)
    (hgb : env.getBranchErr = none) (hgf : env.getFolderErr = some e) :
    push_to_codecommit env d =
      (Except.error e, env.branch, [BackendCall.getBranch, BackendCall.getFolder]) := by
  simp [push_to_codecommit, hgb, hgf]

theorem push_put_err (env : Env) (d : List (RPath × List Nat)) (e : SyncError)
    (hgb : env.getBranchErr = none) (hgf : env.getFolderErr = none)
    (he : put_changes d = Except.error e) :
    push_to_codecommit env d =
      (Except.error e, env.branch, [BackendCall.getBranch, BackendCall.getFolder]) := by
  simp [push_to_codecommit, hgb, hgf, he]

/-- Claim C7: if the branch head fetch, the root listing fetch, or the
change-set computation fails, synchronize issues no commit call, the branch is
left unchanged, and the first failing step's error propagates to the caller
unchanged with no internal retry (each fetch is issued at most once). -/
theorem C7_pre_commit_failure (env : Env) (d : List (RPath × List Nat))
    (h : env.getBranchErr.isSome ∨ env.getFolderErr.isSome ∨
      ∃ e, put_changes d = Except.error e) :
    (∃ e, (push_to_codecommit env d).1 = Except.error e ∧
        (env.getBranchErr = some e ∨
          (env.getBranchErr = none ∧ env.getFolderErr = some e) ∨
          (env.getBranchErr = none ∧ env.getFolderErr = none ∧
            put_changes d = Except.error e))) ∧
    (push_to_codecommit env d).2.1 = env.branch ∧
    BackendCall.createCommit ∉ (push_to_codecommit env d).2.2 ∧
    ((push_to_codecommit env d).2.2.count BackendCall.getBranch ≤ 1 ∧
      (push_to_codecommit env d).2.2.count BackendCall.getFolder ≤ 1) := by
  cases hgb : env.getBranchErr with
  | some e =>
    rw [push_getBranch_err env d e hgb]
    exact ⟨⟨e, rfl, Or.inl rfl⟩, rfl,
      (by decide : BackendCall.createCommit ∉ [BackendCall.getBranch]),
      (by decide : List.count BackendCall.getBranch [BackendCall.getBranch] ≤ 1),
      (by decide : List.count BackendCall.getFolder [BackendCall.getBranch] ≤ 1)⟩
  | none =>
    cases hgf : env.getFolderErr with
    | some e =>
      rw [push_getFolder_err env d e hgb hgf]
      exact ⟨⟨e, rfl, Or.inr (Or.inl ⟨rfl, rfl⟩)⟩, rfl,
        (by decide :
          BackendCall.createCommit ∉ [BackendCall.getBranch, BackendCall.getFolder]),
        (by decide : List.count BackendCall.getBranch
          [BackendCall.getBranch, BackendCall.getFolder] ≤ 1),
        (by decide : List.count BackendCall.getFolder
          [BackendCall.getBranch, BackendCall.getFolder] ≤ 1)⟩
    | none =>
      have hpc : ∃ e, put_changes d = Except.error e := by
        rcases h with h1 | h2 | h3
        · rw [hgb] at h1
          simp at h1
        · rw [hgf] at h2
          simp at h2
        · exact h3
      obtain ⟨e, he⟩ := hpc
      rw [push_put_err env d e hgb hgf he]
      exact ⟨⟨e, rfl, Or.inr (Or.inr ⟨rfl, rfl, he⟩)⟩, rfl,
        (by decide :
          BackendCall.createCommit ∉ [BackendCall.getBranch, BackendCall.getFolder]),
        (by decide : List.count BackendCall.getBranch
          [BackendCall.getBranch, BackendCall.getFolder] ≤ 1),
        (by decide : List.count BackendCall.getFolder
          [BackendCall.getBranch, BackendCall.getFolder] ≤ 1)⟩

theorem C7_pre_commit_failure_witness :
    (∃ e, (push_to_codecommit
          { branch := { headId := 0, tree := [] },
            getBranchErr := some SyncError.branchNotFound,
            getFolderErr := none, createCommitErr := none } []).1 = Except.error e ∧
        (({ branch := { headId := 0, tree := [] },
            getBranchErr := some SyncError.branchNotFound,
            getFolderErr := none, createCommitErr := none } : Env).getBranchErr = some e ∨
          (({ branch := { headId := 0, tree := [] },
              getBranchErr := some SyncError.branchNotFound,
              getFolderErr := none, createCommitErr := none } : Env).getBranchErr = none ∧
            ({ branch := { headId := 0, tree := [] },
               getBranchErr := some SyncError.branchNotFound,
               getFolderErr := none, createCommitErr := none } : Env).getFolderErr = some e) ∨
          (({ branch := { headId := 0, tree := [] },
              getBranchErr := some SyncError.branchNotFound,
              getFolderErr := none, createCommitErr := none } : Env).getBranchErr = none ∧
            ({ branch := { headId := 0, tree := [] },
               getBranchErr := some SyncError.branchNotFound,
               getFolderErr := none, createCommitErr := none } : Env).getFolderErr = none ∧
            put_changes [] = Except.error e))) ∧
    (push_to_codecommit
        { branch := { headId := 0, tree := [] },
          getBranchErr := some SyncError.branchNotFound,
          getFolderErr := none, createCommitErr := none } []).2.1 =
      ({ branch := { headId := 0, tree := [] },
         getBranchErr := some SyncError.branchNotFound,
         getFolderErr := none, createCommitErr := none } : Env).branch ∧
    BackendCall.createCommit ∉ (push_to_codecommit
        { branch := { headId := 0, tree := [] },
          getBranchErr := some SyncError.branchNotFound,
          getFolderErr := none, createCommitErr := none } []).2.2 ∧
    ((push_to_codecommit
          { branch := { headId := 0, tree := [] },
            getBranchErr := some SyncError.branchNotFound,
            getFolderErr := none, createCommitErr := none } []).2.2.count
        BackendCall.getBranch ≤ 1 ∧
      (push_to_codecommit
          { branch := { headId := 0, tree := [] },
            getBranchErr := some SyncError.branchNotFound,
            getFolderErr := none, createCommitErr := none } []).2.2.count
        BackendCall.getFolder ≤ 1) :=
  C7_pre_commit_failure
    { branch := { headId := 0, tree := [] },
      getBranchErr := some SyncError.branchNotFound,
      getFolderErr := none, createCommitErr := none } [] (Or.inl rfl)

/-- Claim C8: every successful synchronize invocation issues exactly one
create_commit call against the backend, regardless of the number of puts and
deletes; a second commit call never occurs within one invocation. -/
theorem C8_single_commit (env : Env) (d : List (RPath × List Nat)) (c : Nat)
    (h : (push_to_codecommit env d).1 = Except.ok c) :
    (push_to_codecommit env d).2.2.count BackendCall.createCommit = 1 := by
  cases hgb : env.getBranchErr with
  | some e =>
    simp only [push_to_codecommit, hgb] at h
    exact Except.noConfusion h
  | none =>
    cases hgf : env.getFolderErr with
    | some e =>
      simp only [push_to_codecommit, hgb, hgf] at h
      exact Except.noConfusion h
    | none =>
      cases hpc : put_changes d with
      | error e =>
        simp only [push_to_codecommit, hgb, hgf, hpc] at h
        exact Except.noConfusion h
      | ok ps =>
        simp only [push_to_codecommit, hgb, hgf, hpc]
        cases hcc : create_commit env env.branch.headId ps
            (delete_changes (env.branch.tree.map Prod.fst) d) with
        | error e => simp only [hcc]; decide
        | ok pr =>
          obtain ⟨cid, st2⟩ := pr
          simp only [hcc]
          decide

theorem C8_single_commit_witness :
    (push_to_codecommit (allOk { headId := 0, tree := [] }) []).2.2.count
      BackendCall.createCommit = 1 :=
  C8_single_commit (allOk { headId := 0, tree := [] }) [] 1 rfl

/-- Claim C9 counterexample: at a failing invocation (the identity service
rejects the token with status 401), the handler returns the identity
service's response text verbatim as a bare string, which carries no error kind
of the section 7 taxonomy, so the response is not a structured error. -/
theorem C9_structured_error_cx :
    lambda_handler 401 "denied" (allOk { headId := 0, tree := [] }) [] =
      Except.ok (HandlerResponse.rawText "denied") ∧
    ¬ carriesErrorKind (HandlerResponse.rawText "denied") :=
  ⟨rfl, fun h => h⟩

/-- Claim C9 (amended): a failing invocation never yields a structured error:
an authentication failure returns the identity service's response text
verbatim as a bare string, any later failure propagates out of the handler as
an uncaught exception with no response value, and no response the handler can
return carries an error kind of the taxonomy. -/
theorem C9_failure_responses (authStatusCode : Nat) (authText : String) (env : Env)
    (d : List (RPath × List Nat)) :
    (authStatusCode ≠ 200 →
      lambda_handler authStatusCode authText env d =
        Except.ok (HandlerResponse.rawText authText)) ∧
    (∀ e, (push_to_codecommit env d).1 = Except.error e →
      lambda_handler 200 authText env d = Except.error e) ∧
    (∀ r, lambda_handler authStatusCode authText env d = Except.ok r →
      ¬ carriesErrorKind r) := by
  refine ⟨?_, ?_, ?_⟩
  · intro hne
    simp [lambda_handler, hne]
  · intro e he
    simp [lambda_handler, he]
  · intro r hr
    unfold lambda_handler at hr
    by_cases ha : authStatusCode ≠ 200
    · rw [if_pos ha] at hr
      have hre : HandlerResponse.rawText authText = r := by
        injection hr
      rw [← hre]
      exact fun hfalse => hfalse
    · rw [if_neg ha] at hr
      cases hp : (push_to_codecommit env d).1 with
      | error e =>
        rw [hp] at hr
        exact Except.noConfusion hr
      | ok cid =>
        rw [hp] at hr
        have hre : HandlerResponse.okDict 200
            ("Operation completed with commit ID: " ++ toString cid) = r := by
          injection hr
        rw [← hre]
        exact fun hfalse => hfalse

theorem C9_failure_responses_witness :
    lambda_handler 401 "expired token" (allOk { headId := 0, tree := [] }) [] =
      Except.ok (HandlerResponse.rawText "expired token") :=
  (C9_failure_responses 401 "expired token" (allOk { headId := 0, tree := [] }) []).1
    (by decide)

/-- Claim C10: a desired file with non-empty content that is not valid UTF-8
makes synchronize fail with a decoding error before any commit call is issued,
leaving the branch unchanged; and every put entry sent to the backend carries
the UTF-8 decoding of the original bytes, so only archives whose files are
valid UTF-8 text can be synchronized. -/
theorem C10_utf8_safety (env : Env) (d : List (RPath × List Nat)) (p : RPath)
    (c : List Nat) (hgb : env.getBranchErr = none) (hgf : env.getFolderErr = none)
    (hmem : (p, c) ∈ d) (hne : c ≠ []) (hdec : utf8Decode c = none) :
    (∃ q, push_to_codecommit env d =
        (Except.error (SyncError.decodeError q), env.branch,
          [BackendCall.getBranch, BackendCall.getFolder])) ∧
    ∀ (d2 : List (RPath × List Nat)) (ps : List PutEntry) (pc : PutEntry),
      put_changes d2 = Except.ok ps → pc ∈ ps →
        ∃ c2, (pc.filePath, c2) ∈ d2 ∧ c2 ≠ [] ∧ utf8Decode c2 = some pc.fileContent := by
  constructor
  · obtain ⟨q, hq⟩ := put_changes_error d p c hmem hne hdec
    exact ⟨q, push_put_err env d (SyncError.decodeError q) hgb hgf hq⟩
  · intro d2 ps pc hps hpc
    obtain ⟨-, c2, hm, hn, hd⟩ := put_changes_mem d2 ps hps pc hpc
    exact ⟨c2, hm, hn, hd⟩

theorem C10_utf8_safety_witness :
    (∃ q, push_to_codecommit (allOk { headId := 0, tree := [] })
        [("a.txt", ([255] : List Nat))] =
        (Except.error (SyncError.decodeError q),
          ({ headId := 0, tree := [] } : BranchState),
          [BackendCall.getBranch, BackendCall.getFolder])) ∧
    ∀ (d2 : List (RPath × List Nat)) (ps : List PutEntry) (pc : PutEntry),
      put_changes d2 = Except.ok ps → pc ∈ ps →
        ∃ c2, (pc.filePath, c2) ∈ d2 ∧ c2 ≠ [] ∧ utf8Decode c2 = some pc.fileContent :=
  C10_utf8_safety (allOk { headId := 0, tree := [] }) [("a.txt", [255])] "a.txt" [255]
    rfl rfl (by decide) (by decide) rfl
